import Mathlib

/-!
Shallow embedding of the skycoin-exchange server (src/server/server.go)
for checking its natural-language specification.  Pure functions of the
Go source become Lean functions; the mutable server state touched by the
settlement path (account manager, persisted snapshot, coin map, utxo
pools) becomes explicit state passing; Go panics and returned errors
become `Except.error`.
-/

namespace SkycoinExchange

/-! ## Go string primitives -/

/-- `listLeadsWith pat s` is true when `pat` is an initial segment of `s`
(character-list form of Go's internal prefix test used by
`strings.Contains`). -/
def listLeadsWith : List Char → List Char → Bool
  | [], _ => true
  | _ :: _, [] => false
  | a :: as, b :: bs => a = b && listLeadsWith as bs

/-- `listContainsSeg pat s` is true when `pat` occurs as a contiguous
segment of `s`. -/
def listContainsSeg (pat : List Char) : List Char → Bool
  | [] => listLeadsWith pat []
  | b :: bs => listLeadsWith pat (b :: bs) || listContainsSeg pat bs

/-- Go's `strings.Contains(s, sub)`: `sub` occurs somewhere within `s`. -/
def stringsContains (s sub : String) : Bool :=
  listContainsSeg sub.data s.data

/-- Splitting a character list at every occurrence of `sep`
(`splitOnChar sep []` is `[[]]`, matching Go's `strings.Split("", sep) = [""]`). -/
def splitOnChar (sep : Char) : List Char → List (List Char)
  | [] => [[]]
  | c :: rest =>
    if c = sep then [] :: splitOnChar sep rest
    else
      match splitOnChar sep rest with
      | [] => [[c]]
      | g :: gs => (c :: g) :: gs

/-- Go's `strings.Split(s, sep)` for a one-character separator. -/
def goSplit (s : String) (sep : Char) : List String :=
  (splitOnChar sep s.data).map (fun l => ⟨l⟩)

/-! ## Account store

The account package is not under src/; only its caller `settleOrder` is.
Its operations are modelled from the spec. -/

/-- An account's balances: a total map from asset symbol to non-negative
integer balance (absent assets read 0). -/
abbrev Balances := String → Nat

/-- The account manager's map from account id to its balances. -/
abbrev AccountMap := List (String × Balances)

/-- Go map lookup on a string-keyed association list (at most one binding
per key in any state reachable from a Go map). -/
def lookupKey {α : Type} : List (String × α) → String → Option α
  | [], _ => none
  | (k1, v) :: rest, k => if k1 = k then some v else lookupKey rest k

/-- Replace the binding of `id` (Go mutates the account in place through
the pointer returned by `GetAccount`). -/
def setAccount : AccountMap → String → Balances → AccountMap
  | [], _, _ => []
  | (k, v) :: rest, id, b =>
    if k = id then (id, b) :: rest else (k, v) :: setAccount rest id b

/-- Modelled from the spec: the Account Store's `increase(id, asset, amt)`
adds `amt` to the asset's balance and never fails. -/
def increaseBalance (b : Balances) (asset : String) (amt : Nat) : Balances :=
  fun a => if a = asset then b a + amt else b a

/-- Modelled from the spec: the Account Store's `decrease(id, asset, amt)`
fails with `insufficient_balance` if `amt` exceeds the current balance,
otherwise subtracts it (keeping `balance ≥ 0`). -/
def decreaseBalance (b : Balances) (asset : String) (amt : Nat) : Option Balances :=
  if b asset < amt then none
  else some (fun a => if a = asset then b a - amt else b a)

/-- Balance of `asset` on account `id` as read from an account map. -/
def getBal (m : AccountMap) (id asset : String) : Nat :=
  match lookupKey m id with
  | some b => b asset
  | none => 0

/-! ## Orders and settlement -/

/-- Side of an order (order.Bid / order.Ask). -/
inductive OrderType
  | Bid
  | Ask
deriving DecidableEq

/-- A matched order event as consumed by `settleOrder` (the fields it
reads: account id, side, price, amount). -/
structure Order where
  AccountID : String
  type : OrderType
  Price : Nat
  Amount : Nat

/-- Server state visible to settlement: the in-memory account map and the
persisted snapshot written by `SaveAccount`. -/
structure SettleState where
  accounts : AccountMap
  disk : AccountMap

/-- `(*ExchangeServer).settleOrder(cp, od)` from src/server/server.go
lines 304-340: look up the account (panic if unknown), split the pair on
"/" (panic unless exactly two components), then on Bid increase the main
balance by amount and persist; on Ask increase the sub balance by
price*amount, decrease the main balance by amount (panic if it would go
negative), and persist.  A panic is an `Except.error`. -/
def settleOrder (st : SettleState) (cp : String) (od : Order) :
    Except String SettleState :=
  match lookupKey st.accounts od.AccountID with
  | none => .error "error account id"
  | some b =>
    match goSplit cp '/' with
    | [mainCt, subCt] =>
      match od.type with
      | .Bid =>
        let b1 := increaseBalance b mainCt od.Amount
        let accounts1 := setAccount st.accounts od.AccountID b1
        .ok { accounts := accounts1, disk := accounts1 }
      | .Ask =>
        let b1 := increaseBalance b subCt (od.Price * od.Amount)
        match decreaseBalance b1 mainCt od.Amount with
        | none => .error "insufficient balance"
        | some b2 =>
          let accounts1 := setAccount st.accounts od.AccountID b2
          .ok { accounts := accounts1, disk := accounts1 }
    | _ => .error "error coin pair"

/-! ## Admin check -/

/-- `(ExchangeServer).IsAdmin(pubkey)` from src/server/server.go lines
263-266: `strings.Contains(cfg.Admins, pubkey)`. -/
def IsAdmin (admins pubkey : String) : Bool :=
  stringsContains admins pubkey

/-- The spec's reading of the admin check, for comparison: the pubkey is
exactly one of the entries of the comma-separated admins list. -/
def adminListMember (admins pubkey : String) : Bool :=
  (goSplit admins ',').contains pubkey

/-! ## Coin gateway registration -/

/-- A coin gateway as seen by `BindCoins`: its `Type()` string (and
`Symbol()`, read elsewhere). -/
structure Gateway where
  type : String
  symbol : String
deriving DecidableEq

/-- The server's `coins` map from type string to gateway. -/
abbrev CoinMap := List (String × Gateway)

/-- `(*ExchangeServer).BindCoins(cs...)` from src/server/server.go lines
139-148: for each gateway in order, return a conflict error if its type
is already in the map, otherwise insert it; return no error at the end.
The returned map is the server's `coins` map after the call (the Go code
mutates it in place, so insertions made before an error persist). -/
def bindCoins : List Gateway → CoinMap → CoinMap × Option String
  | [], m => (m, none)
  | c :: rest, m =>
    match lookupKey m c.type with
    | some _ => (m, some (c.type ++ " coin already registered"))
    | none => bindCoins rest (m ++ [(c.type, c)])

/-! ## Order handler channels -/

/-- A Go channel's observable wiring: its capacity. -/
structure OrderChan where
  capacity : Nat
deriving DecidableEq

/-- The `orderHandlers` map built in `New` (src/server/server.go lines
130-132): one channel per wired pair, `make(chan order.Order, 100)`. -/
def newOrderHandlers : List (String × OrderChan) :=
  [("bitcoin/skycoin", { capacity := 100 })]

/-- `Run` registers exactly the wired handler channels with the order
manager (src/server/server.go lines 160-162): `RegisterOrderChan(cp, c)`
for every entry of `orderHandlers`. -/
def registeredOrderChans : List (String × OrderChan) :=
  newOrderHandlers

/-! ## Utxo reservation and release -/

/-- `bitcoin.Type` (the coin package is not under src/; the value is
fixed by the wired pair string "bitcoin/skycoin"). -/
def bitcoinType : String := "bitcoin"

/-- `skycoin.Type`. -/
def skycoinType : String := "skycoin"

/-- Modelled from the spec: the outcome of a per-chain utxo manager's
`ChooseUtxos` call (the utxo manager code is not under src/); per the
spec's failure semantics it returns utxos, times out, or is cancelled.
Utxos are represented by their amounts. -/
inductive UmChooseResult
  | ok (utxos : List Nat)
  | timeout
  | cancelled
deriving DecidableEq

/-- Failure modes of the server's `ChooseUtxos`. -/
inductive ChooseErr
  | timeout
  | cancelled
  | unknownCoinType
deriving DecidableEq

/-- A per-chain manager outcome as an `Except`. -/
def liftUm : UmChooseResult → Except ChooseErr (List Nat)
  | .ok us => .ok us
  | .timeout => .error .timeout
  | .cancelled => .error .cancelled

/-- `(*ExchangeServer).ChooseUtxos(cp, amount, tm)` from
src/server/server.go lines 218-227: dispatch on the coin type string;
bitcoin and skycoin delegate to their utxo manager (whose outcome is the
corresponding argument), any other string returns
`errors.New("unknow coin type")`. -/
def ChooseUtxos (cp : String) (btcRes skyRes : UmChooseResult) :
    Except ChooseErr (List Nat) :=
  if cp = bitcoinType then liftUm btcRes
  else if cp = skycoinType then liftUm skyRes
  else .error .unknownCoinType

/-- The two chains' live utxo pools held by the server's managers. -/
structure UtxoPools where
  btcLive : List Nat
  skyLive : List Nat
deriving DecidableEq

/-- The dynamically typed `utxos interface{}` argument of `PutUtxos`:
either a bitcoin slice or a skycoin slice. -/
inductive UtxoSlice
  | btc (us : List Nat)
  | sky (us : List Nat)
deriving DecidableEq

/-- Modelled from the spec: the per-chain manager's `PutUtxo` moves one
utxo back to the live pool (utxo manager code not under src/). -/
def putOneUtxo (pool : List Nat) (u : Nat) : List Nat :=
  pool ++ [u]

/-- `(*ExchangeServer).PutUtxos(cp, utxos)` from src/server/server.go
lines 230-243: on "bitcoin" or "skycoin", down-cast the slice (a failed
type assertion panics, an `Except.error` here) and put each utxo back;
on any other coin type the switch has no default case, so the call
returns with no error and no state change. -/
def PutUtxos (st : UtxoPools) (cp : String) (utxos : UtxoSlice) :
    Except String UtxoPools :=
  if cp = bitcoinType then
    match utxos with
    | .btc us => .ok { st with btcLive := us.foldl putOneUtxo st.btcLive }
    | .sky _ => .error "interface conversion panic"
  else if cp = skycoinType then
    match utxos with
    | .sky us => .ok { st with skyLive := us.foldl putOneUtxo st.skyLive }
    | .btc _ => .error "interface conversion panic"
  else .ok st

/-! ## Bitcoin fee -/

/-- Go's `uint64(v)` conversion of a 64-bit signed `int`: the value
modulo 2^64. -/
def goUint64OfInt (v : Int) : Nat :=
  (v % (2 ^ 64 : Int)).toNat

/-- `(ExchangeServer).GetBtcFee()` from src/server/server.go lines
179-181: `uint64(cfg.BtcFee)` where `BtcFee` is a signed `int`. -/
def GetBtcFee (btcFee : Int) : Nat :=
  goUint64OfInt btcFee

/-! ## Scenario S1 -/

/-- S1 initial accounts: A holds 1000 bitcoin-units, B holds 5000
skycoin-units, all other balances 0. -/
def s1Accounts : AccountMap :=
  [("A", fun a => if a = "bitcoin" then 1000 else 0),
   ("B", fun a => if a = "skycoin" then 5000 else 0)]

/-- S1 initial settlement state (persisted snapshot in sync). -/
def s1State : SettleState :=
  { accounts := s1Accounts, disk := s1Accounts }

/-- A's matched ask(price=5, amount=100). -/
def s1AskA : Order :=
  { AccountID := "A", type := .Ask, Price := 5, Amount := 100 }

/-- B's matched bid(price=5, amount=100). -/
def s1BidB : Order :=
  { AccountID := "B", type := .Bid, Price := 5, Amount := 100 }

/-- The state after settling both S1 matched events on pair
"bitcoin/skycoin" (order admission performs no balance change in the
source: `AddOrder` only forwards to the order manager). -/
def s1After : Except String SettleState :=
  match settleOrder s1State "bitcoin/skycoin" s1AskA with
  | .ok st => settleOrder st "bitcoin/skycoin" s1BidB
  | .error e => .error e

/-- The four S1 balances (A.bitcoin, A.skycoin, B.bitcoin, B.skycoin)
read out of a settlement outcome. -/
def s1Readout : Except String SettleState → Option (Nat × Nat × Nat × Nat)
  | .ok st =>
    some (getBal st.accounts "A" "bitcoin", getBal st.accounts "A" "skycoin",
          getBal st.accounts "B" "bitcoin", getBal st.accounts "B" "skycoin")
  | .error _ => none

/-! ## Helper lemmas -/

/-- A key found in a map is still found, with the same value, after
appending further entries. -/
theorem lookupKey_append_of_isSome {α : Type} (m m2 : List (String × α)) (k : String)
    (h : (lookupKey m k).isSome) :
    lookupKey (m ++ m2) k = lookupKey m k := by
  induction m with
  | nil => simp [lookupKey] at h
  | cons hd tl ih =>
    obtain ⟨k1, v⟩ := hd
    by_cases hk : k1 = k
    · simp [lookupKey, hk]
    · simp only [lookupKey, if_neg hk] at h
      simp only [List.cons_append, lookupKey, if_neg hk]
      exact ih h

/-- Looking up a key absent from the first part of an appended map falls
through to the second part. -/
theorem lookupKey_append_of_none {α : Type} (m m2 : List (String × α)) (k : String)
    (h : lookupKey m k = none) :
    lookupKey (m ++ m2) k = lookupKey m2 k := by
  induction m with
  | nil => simp
  | cons hd tl ih =>
    obtain ⟨k1, v⟩ := hd
    by_cases hk : k1 = k
    · simp [lookupKey, hk] at h
    · simp only [lookupKey, if_neg hk] at h
      simp only [List.cons_append, lookupKey, if_neg hk]
      exact ih h

/-- Replacing an existing account's balances is visible to a subsequent
lookup of that account. -/
theorem lookupKey_setAccount_self (m : AccountMap) (id : String) (b c : Balances)
    (h : lookupKey m id = some b) :
    lookupKey (setAccount m id c) id = some c := by
  induction m with
  | nil => simp [lookupKey] at h
  | cons hd tl ih =>
    obtain ⟨k, v⟩ := hd
    by_cases hk : k = id
    · subst hk
      simp [setAccount, lookupKey]
    · simp only [lookupKey, if_neg hk] at h
      simp only [setAccount, if_neg hk, lookupKey]
      exact ih h

/-- A gateway of the list is found by type in the list's keyed image. -/
theorem lookupKey_map_isSome (l : List Gateway) (g : Gateway) (h : g ∈ l) :
    (lookupKey (l.map (fun x => (x.type, x))) g.type).isSome := by
  induction l with
  | nil => simp at h
  | cons c rest ih =>
    by_cases hc : c.type = g.type
    · simp [lookupKey, hc]
    · have hg : g ∈ rest := by
        rcases List.mem_cons.mp h with h1 | h1
        · exact absurd (by rw [h1]) hc
        · exact h1
      simp only [List.map_cons, lookupKey, if_neg hc]
      exact ih hg

/-- Running `bindCoins` over gateways whose types are fresh and pairwise
distinct inserts every one of them, in order, and returns no error. -/
theorem bindCoins_run_fresh (cs : List Gateway) (m : CoinMap)
    (hfresh : ∀ g, g ∈ cs → lookupKey m g.type = none)
    (hdist : cs.Pairwise (fun a b => a.type ≠ b.type)) :
    bindCoins cs m = (m ++ cs.map (fun g => (g.type, g)), none) := by
  induction cs generalizing m with
  | nil => simp [bindCoins]
  | cons c rest ih =>
    have hc : lookupKey m c.type = none := hfresh c (by simp)
    rw [List.pairwise_cons] at hdist
    have step : bindCoins (c :: rest) m = bindCoins rest (m ++ [(c.type, c)]) := by
      simp [bindCoins, hc]
    rw [step, ih (m ++ [(c.type, c)])]
    · simp
    · intro g hg
      rw [lookupKey_append_of_none _ _ _ (hfresh g (List.mem_cons_of_mem _ hg))]
      have hne : c.type ≠ g.type := hdist.1 g hg
      simp [lookupKey, hne]
    · exact hdist.2

/-- `bindCoins` on an appended list continues from the state an
error-free run on the first part produced. -/
theorem bindCoins_append_run (cs1 cs2 : List Gateway) (m m2 : CoinMap)
    (h : bindCoins cs1 m = (m2, none)) :
    bindCoins (cs1 ++ cs2) m = bindCoins cs2 m2 := by
  induction cs1 generalizing m with
  | nil =>
    simp only [bindCoins, Prod.mk.injEq] at h
    rw [List.nil_append, h.1]
  | cons c rest ih =>
    cases hc : lookupKey m c.type with
    | some g =>
      simp [bindCoins, hc] at h
    | none =>
      simp only [bindCoins, hc] at h
      simp only [List.cons_append, bindCoins, hc]
      exact ih _ h

/-- If some gateway of the list conflicts with the initial map,
`bindCoins` reports an error. -/
theorem bindCoins_some_of_conflict (cs : List Gateway) (m : CoinMap)
    (h : ∃ c, c ∈ cs ∧ (lookupKey m c.type).isSome) :
    ((bindCoins cs m).2).isSome := by
  induction cs generalizing m with
  | nil =>
    obtain ⟨c, hc, _⟩ := h
    simp at hc
  | cons c rest ih =>
    cases hc : lookupKey m c.type with
    | some g => simp [bindCoins, hc]
    | none =>
      obtain ⟨d, hd, hds⟩ := h
      rcases List.mem_cons.mp hd with h1 | h1
      · rw [h1, hc] at hds
        simp at hds
      · have hds2 : (lookupKey (m ++ [(c.type, c)]) d.type).isSome := by
          rw [lookupKey_append_of_isSome _ _ _ hds]
          exact hds
        simp only [bindCoins, hc]
        exact ih _ ⟨d, h1, hds2⟩

/-- `listLeadsWith pat s` holds exactly when `s` extends `pat`. -/
theorem listLeadsWith_iff (pat s : List Char) :
    listLeadsWith pat s = true ↔ ∃ r, s = pat ++ r := by
  induction pat generalizing s with
  | nil =>
    simp [listLeadsWith]
  | cons a as ih =>
    cases s with
    | nil =>
      simp [listLeadsWith]
    | cons b bs =>
      simp only [listLeadsWith, Bool.and_eq_true, decide_eq_true_eq, ih,
        List.cons_append, List.cons.injEq]
      constructor
      · rintro ⟨hab, r, hr⟩
        exact ⟨r, hab.symm, hr⟩
      · rintro ⟨r, hba, hr⟩
        exact ⟨hba.symm, r, hr⟩

/-- `listContainsSeg pat s` holds exactly when `pat` is a contiguous
segment of `s`. -/
theorem listContainsSeg_iff (pat s : List Char) :
    listContainsSeg pat s = true ↔ ∃ l r, s = l ++ (pat ++ r) := by
  induction s with
  | nil =>
    simp only [listContainsSeg, listLeadsWith_iff]
    constructor
    · rintro ⟨r, hr⟩
      exact ⟨[], r, by simpa using hr⟩
    · rintro ⟨l, r, hr⟩
      rcases List.append_eq_nil.mp hr.symm with ⟨hl, hpr⟩
      exact ⟨r, by simp [hpr]⟩
  | cons b bs ih =>
    simp only [listContainsSeg, Bool.or_eq_true, listLeadsWith_iff, ih]
    constructor
    · rintro (⟨r, hr⟩ | ⟨l, r, hr⟩)
      · exact ⟨[], r, by simpa using hr⟩
      · exact ⟨b :: l, r, by simp [hr]⟩
    · rintro ⟨l, r, hr⟩
      cases l with
      | nil => exact Or.inl ⟨r, by simpa using hr⟩
      | cons x xs =>
        simp only [List.cons_append, List.cons.injEq] at hr
        exact Or.inr ⟨xs, r, hr.2⟩

/-! ## Claim theorems -/

/-- Claim C1 (scenario S1): with A holding 1000 bitcoin-units and B
holding 5000 skycoin-units, settling A's matched ask(5, 100) and B's
matched bid(5, 100) on "bitcoin/skycoin" leaves A.bitcoin = 900,
A.skycoin = 500, B.bitcoin = 100 — but B.skycoin = 5000, not the 4500
the claim states: the code never debits the bid side's counter-asset
(and order admission performs no balance change either). -/
theorem C1_s1_balances :
    s1Readout s1After = some (900, 500, 100, 5000) ∧
    s1Readout s1After ≠ some (900, 500, 100, 4500) := by
  decide

/-- Claim C2: a settled matched event on a pair splitting into
(main, sub) increases the account's main balance by the amount when the
side is bid, touching no other balance of that account; when the side is
ask it increases the sub balance by price × amount and decreases the
main balance by the amount, touching no other balance; in both cases the
resulting account map is persisted (`disk` equals `accounts`). -/
theorem C2_settleOrder_effect (st : SettleState) (cp main sub : String)
    (od : Order) (b : Balances)
    (hsplit : goSplit cp '/' = [main, sub])
    (hacct : lookupKey st.accounts od.AccountID = some b) :
    (od.type = .Bid →
      ∃ st2, settleOrder st cp od = .ok st2 ∧
        getBal st2.accounts od.AccountID main = b main + od.Amount ∧
        (∀ a, a ≠ main → getBal st2.accounts od.AccountID a = b a) ∧
        st2.disk = st2.accounts) ∧
    (od.type = .Ask → main ≠ sub → od.Amount ≤ b main →
      ∃ st2, settleOrder st cp od = .ok st2 ∧
        getBal st2.accounts od.AccountID sub = b sub + od.Price * od.Amount ∧
        getBal st2.accounts od.AccountID main = b main - od.Amount ∧
        (∀ a, a ≠ main → a ≠ sub → getBal st2.accounts od.AccountID a = b a) ∧
        st2.disk = st2.accounts) := by
  constructor
  · intro htype
    have hso : settleOrder st cp od =
        .ok { accounts := setAccount st.accounts od.AccountID
                (increaseBalance b main od.Amount),
              disk := setAccount st.accounts od.AccountID
                (increaseBalance b main od.Amount) } := by
      unfold settleOrder
      rw [hacct, hsplit, htype]
    refine ⟨_, hso, ?_, ?_, rfl⟩
    · unfold getBal
      rw [lookupKey_setAccount_self st.accounts od.AccountID b _ hacct]
      simp [increaseBalance]
    · intro a ha
      unfold getBal
      rw [lookupKey_setAccount_self st.accounts od.AccountID b _ hacct]
      simp [increaseBalance, ha]
  · intro htype hms hamt
    have hb1main : increaseBalance b sub (od.Price * od.Amount) main = b main := by
      simp [increaseBalance, hms]
    have hnl : ¬ (increaseBalance b sub (od.Price * od.Amount) main < od.Amount) := by
      rw [hb1main]
      exact Nat.not_lt.mpr hamt
    have hdec : decreaseBalance (increaseBalance b sub (od.Price * od.Amount))
        main od.Amount =
        some (fun a => if a = main
          then increaseBalance b sub (od.Price * od.Amount) a - od.Amount
          else increaseBalance b sub (od.Price * od.Amount) a) := by
      unfold decreaseBalance
      rw [if_neg hnl]
    have hso : settleOrder st cp od =
        .ok { accounts := setAccount st.accounts od.AccountID
                (fun a => if a = main
                  then increaseBalance b sub (od.Price * od.Amount) a - od.Amount
                  else increaseBalance b sub (od.Price * od.Amount) a),
              disk := setAccount st.accounts od.AccountID
                (fun a => if a = main
                  then increaseBalance b sub (od.Price * od.Amount) a - od.Amount
                  else increaseBalance b sub (od.Price * od.Amount) a) } := by
      unfold settleOrder
      rw [hacct, hsplit, htype]
      simp only [hdec]
    refine ⟨_, hso, ?_, ?_, ?_, rfl⟩
    · unfold getBal
      rw [lookupKey_setAccount_self st.accounts od.AccountID b _ hacct]
      simp [increaseBalance, Ne.symm hms]
    · unfold getBal
      rw [lookupKey_setAccount_self st.accounts od.AccountID b _ hacct]
      simp [increaseBalance, hms]
    · intro a ham has
      unfold getBal
      rw [lookupKey_setAccount_self st.accounts od.AccountID b _ hacct]
      simp [increaseBalance, ham, has]

/-- Witness for C2 at scenario S1's bid event: settling B's matched
bid(5, 100) on "bitcoin/skycoin" raises B.bitcoin from 0 to 100, leaves
B's other balances untouched, and persists the account map. -/
theorem C2_settleOrder_effect_witness :
    ∃ st2, settleOrder s1State "bitcoin/skycoin" s1BidB = .ok st2 ∧
      getBal st2.accounts "B" "bitcoin" = 100 ∧
      (∀ a, a ≠ "bitcoin" → getBal st2.accounts "B" a =
        (if a = "skycoin" then 5000 else 0)) ∧
      st2.disk = st2.accounts :=
  (C2_settleOrder_effect s1State "bitcoin/skycoin" "bitcoin" "skycoin" s1BidB
    (fun a => if a = "skycoin" then 5000 else 0) (by decide) rfl).1 rfl

/-- Claim C3: settlement of a matched event aborts (Go panic, here an
error outcome) when the account id is unknown, when the pair string does
not split on "/" into exactly two components, and when the ask-side
decrease would drive the main balance negative; there is no silent
continuation in any of these cases. -/
theorem C3_settleOrder_aborts (st : SettleState) (cp : String) (od : Order) :
    (lookupKey st.accounts od.AccountID = none →
      settleOrder st cp od = .error "error account id") ∧
    (∀ b, lookupKey st.accounts od.AccountID = some b →
      (goSplit cp '/').length ≠ 2 →
      settleOrder st cp od = .error "error coin pair") ∧
    (∀ b main sub, lookupKey st.accounts od.AccountID = some b →
      goSplit cp '/' = [main, sub] → main ≠ sub →
      od.type = .Ask → b main < od.Amount →
      settleOrder st cp od = .error "insufficient balance") := by
  refine ⟨?_, ?_, ?_⟩
  · intro h
    unfold settleOrder
    rw [h]
  · intro b hb hlen
    unfold settleOrder
    rw [hb]
    rcases hg : goSplit cp '/' with _ | ⟨x, _ | ⟨y, _ | ⟨z, tl⟩⟩⟩
    · rfl
    · rfl
    · rw [hg] at hlen
      simp at hlen
    · rfl
  · intro b main sub hb hg hms htype hlt
    have hb1main : increaseBalance b sub (od.Price * od.Amount) main = b main := by
      simp [increaseBalance, hms]
    have hdec : decreaseBalance (increaseBalance b sub (od.Price * od.Amount))
        main od.Amount = none := by
      unfold decreaseBalance
      rw [if_pos]
      rw [hb1main]
      exact hlt
    unfold settleOrder
    rw [hb, hg, htype]
    simp only [hdec]

/-- Witness for C3: each abort condition observed at a concrete input —
an empty account map, the separator-free pair "bitcoinskycoin", and an
ask by B who holds no bitcoin. -/
theorem C3_settleOrder_aborts_witness :
    settleOrder { accounts := [], disk := [] } "bitcoin/skycoin" s1BidB =
      .error "error account id" ∧
    settleOrder s1State "bitcoinskycoin" s1BidB = .error "error coin pair" ∧
    settleOrder s1State "bitcoin/skycoin"
      { AccountID := "B", type := .Ask, Price := 5, Amount := 100 } =
      .error "insufficient balance" :=
  ⟨(C3_settleOrder_aborts { accounts := [], disk := [] } "bitcoin/skycoin" s1BidB).1 rfl,
   (C3_settleOrder_aborts s1State "bitcoinskycoin" s1BidB).2.1 _ rfl (by decide),
   (C3_settleOrder_aborts s1State "bitcoin/skycoin"
      { AccountID := "B", type := .Ask, Price := 5, Amount := 100 }).2.2
     _ "bitcoin" "skycoin" rfl (by decide) (by decide) rfl (by decide)⟩

/-- Counterexample to claim C4: with configured admins "abcd", the
pubkey "bc" — a proper substring of an admin entry and not an entry of
the comma-separated list — is accepted as admin, and so is the empty
pubkey. -/
theorem C4_counterexample :
    IsAdmin "abcd" "bc" = true ∧ adminListMember "abcd" "bc" = false ∧
    IsAdmin "abcd" "" = true ∧ adminListMember "abcd" "" = false := by
  decide

/-- Claim C4 as amended: `IsAdmin` accepts a pubkey exactly when it
occurs as a contiguous substring of the configured admins string (so the
empty pubkey and any substring of an admin entry are accepted). -/
theorem C4_isAdmin_iff_substring (admins pubkey : String) :
    IsAdmin admins pubkey = true ↔
      ∃ l r, admins.data = l ++ (pubkey.data ++ r) := by
  unfold IsAdmin stringsContains
  exact listContainsSeg_iff pubkey.data admins.data

/-- Counterexample to claim C5: a `ChooseUtxos` call with the coin type
"mzcoin" fails with the unknown-coin-type error even though both utxo
managers would have succeeded — a user-observable failure that is
neither a timeout nor a cancellation. -/
theorem C5_counterexample :
    ChooseUtxos "mzcoin" (.ok []) (.ok []) = .error .unknownCoinType ∧
    ChooseErr.unknownCoinType ≠ ChooseErr.timeout ∧
    ChooseErr.unknownCoinType ≠ ChooseErr.cancelled :=
  ⟨rfl, by decide, by decide⟩

/-- Claim C5 as amended: a failing `ChooseUtxos` call through the server
fails with a timeout, a cancellation, or — exactly when the coin type is
neither "bitcoin" nor "skycoin" — the unknown-coin-type error; there is
no further failure mode. -/
theorem C5_chooseUtxos_failures (cp : String) (br sr : UmChooseResult)
    (e : ChooseErr) (h : ChooseUtxos cp br sr = .error e) :
    e = .timeout ∨ e = .cancelled ∨
      (e = .unknownCoinType ∧ cp ≠ bitcoinType ∧ cp ≠ skycoinType) := by
  unfold ChooseUtxos at h
  by_cases hb : cp = bitcoinType
  · rw [if_pos hb] at h
    cases br with
    | ok us => simp [liftUm] at h
    | timeout => exact Or.inl (by simpa [liftUm] using h.symm)
    | cancelled => exact Or.inr (Or.inl (by simpa [liftUm] using h.symm))
  · rw [if_neg hb] at h
    by_cases hs : cp = skycoinType
    · rw [if_pos hs] at h
      cases sr with
      | ok us => simp [liftUm] at h
      | timeout => exact Or.inl (by simpa [liftUm] using h.symm)
      | cancelled => exact Or.inr (Or.inl (by simpa [liftUm] using h.symm))
    · rw [if_neg hs] at h
      refine Or.inr (Or.inr ⟨?_, hb, hs⟩)
      simpa using h.symm

/-- Witness for the amended C5 at the coin type "mzcoin": the only
possible failure there is the unknown-coin-type error. -/
theorem C5_chooseUtxos_failures_witness :
    ChooseErr.unknownCoinType = ChooseErr.timeout ∨
    ChooseErr.unknownCoinType = ChooseErr.cancelled ∨
    (ChooseErr.unknownCoinType = ChooseErr.unknownCoinType ∧
      "mzcoin" ≠ bitcoinType ∧ "mzcoin" ≠ skycoinType) :=
  C5_chooseUtxos_failures "mzcoin" (.ok []) (.ok []) .unknownCoinType rfl

/-- Claim C6: `BindCoins` errors whenever some gateway of its argument
list has the type of an already registered gateway, and returns no error
when every argument type is unregistered and the argument types are
pairwise distinct. -/
theorem C6_bindCoins_conflict (cs : List Gateway) (m : CoinMap) :
    ((∃ c, c ∈ cs ∧ (lookupKey m c.type).isSome) →
      ((bindCoins cs m).2).isSome) ∧
    ((∀ c, c ∈ cs → lookupKey m c.type = none) →
      cs.Pairwise (fun a b => a.type ≠ b.type) →
      (bindCoins cs m).2 = none) := by
  constructor
  · exact bindCoins_some_of_conflict cs m
  · intro hf hd
    rw [bindCoins_run_fresh cs m hf hd]

/-- Witness for C6: re-registering the bitcoin gateway errors; a first
registration of distinct bitcoin and skycoin gateways does not. -/
theorem C6_bindCoins_conflict_witness :
    ((bindCoins [{ type := "bitcoin", symbol := "BTC" }]
        [("bitcoin", { type := "bitcoin", symbol := "BTC" })]).2).isSome ∧
    (bindCoins [{ type := "bitcoin", symbol := "BTC" },
                { type := "skycoin", symbol := "SKY" }] []).2 = none :=
  ⟨(C6_bindCoins_conflict _ _).1
      ⟨{ type := "bitcoin", symbol := "BTC" }, by decide, by decide⟩,
   (C6_bindCoins_conflict _ _).2 (by decide) (by decide)⟩

/-- Claim C7: every matched-order event channel registered with the
order manager for a pair wired at server construction has capacity
exactly 100. -/
theorem C7_orderChan_capacity (p : String) (ch : OrderChan)
    (h : (p, ch) ∈ registeredOrderChans) : ch.capacity = 100 := by
  unfold registeredOrderChans newOrderHandlers at h
  rcases List.mem_singleton.mp h with heq
  rw [show ch = ({ capacity := 100 } : OrderChan) from congrArg Prod.snd heq]

/-- Witness for C7: the wired "bitcoin/skycoin" channel has capacity
100. -/
theorem C7_orderChan_capacity_witness :
    OrderChan.capacity { capacity := 100 } = 100 :=
  C7_orderChan_capacity "bitcoin/skycoin" { capacity := 100 } (by decide)

/-- Claim C8: a `PutUtxos` call with a chain string other than "bitcoin"
and "skycoin" returns without error and without modifying either pool —
the release is silently dropped. -/
theorem C8_putUtxos_silent_drop (st : UtxoPools) (cp : String) (us : UtxoSlice)
    (h1 : cp ≠ bitcoinType) (h2 : cp ≠ skycoinType) :
    PutUtxos st cp us = .ok st := by
  unfold PutUtxos
  rw [if_neg h1, if_neg h2]

/-- Witness for C8: releasing bitcoin utxos under the misspelled chain
name "Bitcoin" silently returns the pools unchanged. -/
theorem C8_putUtxos_silent_drop_witness :
    PutUtxos { btcLive := [7, 3], skyLive := [5] } "Bitcoin" (.btc [9]) =
      .ok { btcLive := [7, 3], skyLive := [5] } :=
  C8_putUtxos_silent_drop { btcLive := [7, 3], skyLive := [5] } "Bitcoin"
    (.btc [9]) (by decide) (by decide)

/-- Claim C10: `GetBtcFee` converts the configured signed fee to uint64,
so every negative configured value yields that value plus 2^64 — never
an error (the function is total) and never zero. -/
theorem C10_getBtcFee_negative (v : Int) (h1 : -(2 ^ 63) ≤ v) (h2 : v < 0) :
    GetBtcFee v = (v + 2 ^ 64).toNat ∧ 0 < GetBtcFee v := by
  unfold GetBtcFee goUint64OfInt
  constructor
  · omega
  · omega

/-- Witness for C10: a configured fee of -1 yields 2^64 - 1. -/
theorem C10_getBtcFee_negative_witness :
    GetBtcFee (-1) = ((-1) + 2 ^ 64).toNat ∧ 0 < GetBtcFee (-1) :=
  C10_getBtcFee_negative (-1) (by decide) (by decide)

/-- Claim C9: `BindCoins` is not atomic on error — when the gateways
before the first already-registered type are fresh and pairwise
distinct, the call returns the conflict error for that type, yet the
earlier gateways have been inserted into the coin map and every one of
them is still registered in the resulting map. -/
theorem C9_bindCoins_not_atomic (pre : List Gateway) (c : Gateway)
    (post : List Gateway) (m : CoinMap)
    (hfresh : ∀ g, g ∈ pre → lookupKey m g.type = none)
    (hdist : pre.Pairwise (fun a b => a.type ≠ b.type))
    (hconf : (lookupKey m c.type).isSome) :
    bindCoins (pre ++ c :: post) m =
      (m ++ pre.map (fun g => (g.type, g)),
       some (c.type ++ " coin already registered")) ∧
    ∀ g, g ∈ pre →
      (lookupKey (bindCoins (pre ++ c :: post) m).1 g.type).isSome := by
  have hrun := bindCoins_run_fresh pre m hfresh hdist
  have happ := bindCoins_append_run pre (c :: post) m _ hrun
  have hconf2 : (lookupKey (m ++ pre.map (fun g => (g.type, g))) c.type).isSome := by
    rw [lookupKey_append_of_isSome _ _ _ hconf]
    exact hconf
  obtain ⟨g0, hg0⟩ := Option.isSome_iff_exists.mp hconf2
  have hstep : bindCoins (c :: post) (m ++ pre.map (fun g => (g.type, g))) =
      (m ++ pre.map (fun g => (g.type, g)),
       some (c.type ++ " coin already registered")) := by
    simp [bindCoins, hg0]
  have hmain : bindCoins (pre ++ c :: post) m =
      (m ++ pre.map (fun g => (g.type, g)),
       some (c.type ++ " coin already registered")) := by
    rw [happ, hstep]
  refine ⟨hmain, ?_⟩
  intro g hg
  rw [hmain]
  rw [lookupKey_append_of_none _ _ _ (hfresh g hg)]
  exact lookupKey_map_isSome pre g hg

/-- Witness for C9: binding the fresh skycoin gateway followed by the
already-registered bitcoin gateway errors, yet leaves the skycoin
gateway registered. -/
theorem C9_bindCoins_not_atomic_witness :
    bindCoins (([{ type := "skycoin", symbol := "SKY" }] : List Gateway) ++
        ({ type := "bitcoin", symbol := "BTC" } : Gateway) :: [])
        [("bitcoin", { type := "bitcoin", symbol := "BTC" })] =
      ([("bitcoin", { type := "bitcoin", symbol := "BTC" })] ++
        ([{ type := "skycoin", symbol := "SKY" }] : List Gateway).map
          (fun g => (g.type, g)),
       some ("bitcoin" ++ " coin already registered")) ∧
    ∀ g, g ∈ ([{ type := "skycoin", symbol := "SKY" }] : List Gateway) →
      (lookupKey (bindCoins
        (([{ type := "skycoin", symbol := "SKY" }] : List Gateway) ++
          ({ type := "bitcoin", symbol := "BTC" } : Gateway) :: [])
        [("bitcoin", { type := "bitcoin", symbol := "BTC" })]).1 g.type).isSome :=
  C9_bindCoins_not_atomic [{ type := "skycoin", symbol := "SKY" }]
    { type := "bitcoin", symbol := "BTC" } []
    [("bitcoin", { type := "bitcoin", symbol := "BTC" })]
    (by decide) (by decide) (by decide)

end SkycoinExchange
